import Mathlib

/-!
Shallow embedding of `source/code/configuration/instance_schedule.py`
(class `InstanceSchedule`): desired-state resolution (`get_desired_state`)
and usage / billing-interval reconstruction (`get_usage`).

Modelling conventions:
* Instants (Python `datetime`) are `Nat` seconds since an arbitrary epoch;
  a calendar day `d` starts at `d * 86400`.  `dt.replace(hour=h, minute=m)`
  on the midnight-aligned loop variable of `get_usage` becomes
  `dayStart + (h*60+m)*60`.
* A period's `begintime` / `endtime` (Python `datetime.time`, minute
  resolution) is an `Option Nat` holding minutes-of-day; a well-formed
  time-of-day is `< 1440`.
* Timezone localization (`astimezone`, external `pytz`) is the identity:
  instants are already localized, and the opaque per-period result source
  (`period.get_desired_state`) is a function field from localized instants
  to states.
* Python's `set` of boundary instants followed by `sorted(list(...))` is a
  candidate list deduplicated (`dedup`) and sorted (`insertionSort`).
* A Python dict keyed by period name is an association list where
  assignment replaces an existing key in place and otherwise appends.
-/

/-- The instance states of `InstanceSchedule` (`STATE_UNKNOWN` ... `STATE_STANDBY`). -/
inductive SState where
  | unknown
  | any
  | stopped
  | running
  | retain_running
  | standby
deriving DecidableEq, Repr

/-- `configuration.OVERRIDE_STATUS_RUNNING`. -/
def OVERRIDE_STATUS_RUNNING : String := "running"

/-- `ERR_STOP_MUST_BE_LATER_OR_EQUAL_TO_START`. -/
def ERR_STOP_MUST_BE_LATER_OR_EQUAL_TO_START : String :=
  "stop_date must be equal or later than start_date"

/-- A period (external collaborator): its name, optional begin/end
times-of-day in minutes, and its opaque per-instant state source. -/
structure Period where
  name : String
  begintime : Option Nat
  endtime : Option Nat
  state : Nat → SState

/-- One element of `InstanceSchedule.periods`: a dict with a `"period"` and
an optional `"instancetype"` entry. -/
structure PeriodEntry where
  period : Period
  instancetype : Option String

/-- The resource being scheduled (read-only input of `get_desired_state`). -/
structure Instance where
  allow_resize : Bool
  is_running : Bool
  instancetype : Option String

/-- The schedule configuration fields used by the evaluator. -/
structure InstanceSchedule where
  name : String
  periods : List PeriodEntry
  timezone : String
  override_status : Option String
  schedule_dt : Nat

/-- A `periods_with_desired_states` element: period, type override, and the
state the period reported for the instant. -/
structure PState where
  period : Period
  instancetype : Option String
  state : SState

/-- `latest_starttime`: of two running periods, the one started most
recently; a period without a begin time always loses. -/
def latest_starttime (p1 p2 : PState) : PState :=
  match p1.period.begintime with
  | none => p2
  | some b1 =>
    match p2.period.begintime with
    | none => p1
    | some b2 => if b1 > b2 then p1 else p2

/-- `_reduce`: minimal left fold replacement for Python 2 `reduce`;
`none` on an empty list. -/
def _reduce (fn : α → α → α) : List α → Option α
  | [] => none
  | x :: xs => some (xs.foldl fn x)

/-- `requires_adjust_instance_size`: whether the desired type forces a
stop/start cycle. -/
def requires_adjust_instance_size (desired_instance_type : Option String)
    (checked_instance : Instance) : Bool :=
  checked_instance.allow_resize && desired_instance_type.isSome &&
    checked_instance.is_running && desired_instance_type != checked_instance.instancetype

/-- `handle_running_state`: pick the winning period by `latest_starttime`,
derive the desired type, and force `stopped` when a resize is required.
The source only calls this with a non-empty `periods` list (guarded by
`any(...)`), so the `none` branch of `_reduce` is unreachable there. -/
def handle_running_state (inst : Instance) (periods : List PState) :
    SState × Option String × Option String :=
  match _reduce latest_starttime periods with
  | none => (SState.unknown, none, none)
  | some current_running_period =>
    let desired_type := if inst.allow_resize then current_running_period.instancetype else none
    let desired_state :=
      if requires_adjust_instance_size desired_type inst then SState.stopped
      else SState.running
    (desired_state, desired_type, some current_running_period.period.name)

/-- `periods_with_desired_states`: every configured period together with the
state it reports at the (localized) check time. -/
def periods_with_desired_states (s : InstanceSchedule) (check_time : Nat) : List PState :=
  s.periods.map fun p => ⟨p.period, p.instancetype, p.period.state check_time⟩

/-- `InstanceSchedule.get_desired_state`: desired state, instance type and
active period name of the schedule at instant `dt` (defaulting to
`schedule_dt` when absent). -/
def get_desired_state (s : InstanceSchedule) (instance_r : Instance) (dt : Option Nat) :
    SState × Option String × Option String :=
  match s.override_status with
  | some ov =>
    ((if ov = OVERRIDE_STATUS_RUNNING then SState.running else SState.stopped),
      none, some "override_status")
  | none =>
    let localized_time := dt.getD s.schedule_dt
    let pds := periods_with_desired_states s localized_time
    let periods_with_running_state := pds.filter fun p => p.state == SState.running
    if !periods_with_running_state.isEmpty then
      handle_running_state instance_r periods_with_running_state
    else if pds.any (fun p => p.state == SState.any) then
      (SState.any, none, none)
    else
      (SState.stopped, none, none)

/-- An interval descriptor of `get_usage` (`make_period` result): the keys
`"begin"`, `"end"`, `"billing_hours"`, `"billing_seconds"` and the optional
`"instancetype"` (`end` is a Lean keyword, hence the `_dt` suffixes). -/
structure RunPeriod where
  begin_dt : Nat
  end_dt : Nat
  billing_hours : Nat
  billing_seconds : Nat
  instancetype : Option String
deriving DecidableEq, Repr

/-- `running_seconds`: billable seconds of an interval, with a one-minute
minimum charge.  Instants are in seconds, so `(stopdt - startdt)` is the
source's `total_seconds` (non-negative on every interval the source builds,
where the end instant follows the start). -/
def running_seconds (startdt stopdt : Nat) : Nat :=
  max (stopdt - startdt) 60

/-- `running_hours`: billable hours of an interval; partial hours round up
via the `-1 / +1` adjustment. -/
def running_hours (startdt stopdt : Nat) : Nat :=
  (stopdt - startdt - 1) / 3600 + 1

/-- `make_period`: an interval descriptor for a closed running interval. -/
def make_period (started_dt stopped_dt : Nat) (inst_type : Option String) : RunPeriod :=
  { begin_dt := started_dt
    end_dt := stopped_dt
    billing_hours := running_hours started_dt stopped_dt
    billing_seconds := running_seconds started_dt stopped_dt
    instancetype := inst_type }

/-- Dict assignment `running_periods[k] = v`: replace the value at an
existing key in place, else append the new binding. -/
def rp_insert (m : List (Option String × RunPeriod)) (k : Option String) (v : RunPeriod) :
    List (Option String × RunPeriod) :=
  if m.any (fun e => e.1 == k) then m.map (fun e => if e.1 == k then (k, v) else e)
  else m ++ [(k, v)]

/-- The loop state of the boundary walk in `get_usage`: the accumulated
`running_periods` dict and the `started` / `starting_period` /
`current_state` / `instance_type` variables (all `None` initially). -/
structure WalkState where
  running_periods : List (Option String × RunPeriod)
  started : Option Nat
  starting_period : Option String
  current_state : Option SState
  instance_type : Option String
deriving DecidableEq, Repr

/-- The initial walk state of a day. -/
def init_walk : WalkState := ⟨[], none, none, none, none⟩

/-- One iteration of `for tm in sorted(list(timeline))`: re-evaluate the
desired state at `tm` (rebinding `instance_type`), open an interval on a
transition into running, close the open one on a transition into stopped.
The source reads `started` only when `current_state` is running, which
guarantees it is set; `getD 0` stands for that unreachable `None` access. -/
def usage_step (s : InstanceSchedule) (inst : Instance) (st : WalkState) (tm : Nat) :
    WalkState :=
  let r := get_desired_state s inst (some tm)
  let desired_state := r.1
  let period := r.2.2
  let st := { st with instance_type := r.2.1 }
  if st.current_state ≠ some desired_state then
    if desired_state = SState.running then
      { st with started := some tm, current_state := some SState.running,
                starting_period := period }
    else if desired_state = SState.stopped then
      if st.current_state = some SState.running then
        { st with current_state := some SState.stopped,
                  running_periods := rp_insert st.running_periods st.starting_period
                    (make_period (st.started.getD 0) tm st.instance_type) }
      else st
    else st
  else st

/-- The boundary candidates of day `dt` (`dt` = the day's midnight instant):
midnight, plus per period either its begin/end times projected onto the day
or, for an unbounded period, day-start and day-end (23:59). -/
def timeline (s : InstanceSchedule) (dt : Nat) : List Nat :=
  s.periods.foldl
    (fun tl p =>
      match p.period.begintime, p.period.endtime with
      | none, none => tl ++ [dt, dt + 86340]
      | b?, e? =>
        let tl := match b? with
          | some b => tl ++ [dt + b * 60]
          | none => tl
        match e? with
        | some e => tl ++ [dt + e * 60]
        | none => tl)
    [dt]

/-- `sorted(list(timeline))` where `timeline` is a Python set: the distinct
boundary instants in ascending order. -/
def sorted_timeline (s : InstanceSchedule) (dt : Nat) : List Nat :=
  ((timeline s dt).dedup).insertionSort (· ≤ ·)

/-- One day's entry of the usage result: the `running_periods` dict and the
day's aggregated billing totals. -/
structure DayUsage where
  running_periods : List (Option String × RunPeriod)
  billing_seconds : Nat
  billing_hours : Nat
deriving DecidableEq, Repr

/-- The walk over one day's sorted boundary instants. -/
def day_walk (s : InstanceSchedule) (inst : Instance) (dt : Nat) : WalkState :=
  (sorted_timeline s dt).foldl (usage_step s inst) init_walk

/-- The `running_periods` dict of day `dt` after the walk, including the
synthesized `23:59 + 1 minute` close when the day ends still running. -/
def day_running_periods (s : InstanceSchedule) (inst : Instance) (dt : Nat) :
    List (Option String × RunPeriod) :=
  let stF := day_walk s inst dt
  if stF.current_state = some SState.running then
    rp_insert stF.running_periods stF.starting_period
      (make_period (stF.started.getD 0) (dt + 86400) stF.instance_type)
  else stF.running_periods

/-- One day's result entry of `get_usage`. -/
def day_usage (s : InstanceSchedule) (inst : Instance) (dt : Nat) : DayUsage :=
  let rps := day_running_periods s inst dt
  { running_periods := rps
    billing_seconds := (rps.map fun e => e.2.billing_seconds).sum
    billing_hours := (rps.map fun e => e.2.billing_hours).sum }

/-- The placeholder resource fabricated by `get_usage` when no instance is
supplied: `allow_resize = False` (its other attributes are never read,
since `requires_adjust_instance_size` short-circuits on `allow_resize`). -/
def placeholder_instance : Instance :=
  { allow_resize := false, is_running := false, instancetype := none }

/-- `InstanceSchedule.get_usage`: the per-day running periods of the
schedule between days `start_dt` and `stop_dt` (inclusive; `stop_dt`
defaults to `start_dt`), or the invalid-range error when the stop day
precedes the start day.  Days are day indices; day `d` covers instants
`[d * 86400, (d+1) * 86400)`. -/
def get_usage (s : InstanceSchedule) (start_dt : Nat) (stop_dt : Option Nat)
    (instance_r : Option Instance) : Except String (String × List (Nat × DayUsage)) :=
  let stop := stop_dt.getD start_dt
  if start_dt > stop then
    Except.error ERR_STOP_MUST_BE_LATER_OR_EQUAL_TO_START
  else
    let inst := instance_r.getD placeholder_instance
    Except.ok (s.name,
      (List.range (stop - start_dt + 1)).map fun i =>
        (start_dt + i, day_usage s inst ((start_dt + i) * 86400)))

/-! Concrete periods, schedules and resources used to instantiate the
theorems below. -/

/-- A period whose result source always reports running. -/
def always_period (nm : String) (b : Option Nat) : Period :=
  ⟨nm, b, none, fun _ => SState.running⟩

/-- A period running between minutes-of-day `b` (inclusive) and `e`
(exclusive) of every day. -/
def window_period (nm : String) (b e : Nat) : Period :=
  ⟨nm, some b, some e,
    fun t => if b * 60 ≤ t % 86400 ∧ t % 86400 < e * 60 then SState.running else SState.stopped⟩

/-- A period whose result source always reports the `any` state. -/
def any_period (nm : String) : Period := ⟨nm, none, none, fun _ => SState.any⟩

/-- A schedule with the given periods and override status. -/
def mkSched (ps : List PeriodEntry) (ov : Option String) : InstanceSchedule :=
  ⟨"sched", ps, "UTC", ov, 0⟩

/-- A resizable, currently running resource with no recorded type. -/
def resize_inst : Instance := ⟨true, true, none⟩

/-- A non-resizable, stopped resource. -/
def plain_inst : Instance := ⟨false, false, none⟩

/-- One always-running period carrying type override `"B"`. -/
def sched_B : InstanceSchedule :=
  mkSched [⟨always_period "p1" (some 540), some "B"⟩] none

/-- Two always-on periods (no begin time), names `"a"` then `"b"`. -/
def sched_ab : InstanceSchedule :=
  mkSched [⟨always_period "a" none, none⟩, ⟨always_period "b" none, none⟩] none

/-- The same two periods in the opposite order. -/
def sched_ba : InstanceSchedule :=
  mkSched [⟨always_period "b" none, none⟩, ⟨always_period "a" none, none⟩] none

/-- Two disjoint windows (01:00-02:00 and 03:00-04:00) sharing name `"p"`. -/
def sched_twice : InstanceSchedule :=
  mkSched [⟨window_period "p" 60 120, none⟩, ⟨window_period "p" 180 240, none⟩] none

/-- A single 09:00-17:00 window named `"office"`. -/
def sched_office : InstanceSchedule :=
  mkSched [⟨window_period "office" 540 1020, none⟩] none

/-- A schedule with no periods and no override. -/
def sched_empty : InstanceSchedule := mkSched [] none

/-- A schedule with one period that always reports `any`. -/
def sched_any : InstanceSchedule := mkSched [⟨any_period "pa", none⟩] none

/-- An empty schedule forced running through `override_status`. -/
def sched_ov : InstanceSchedule := mkSched [] (some "running")

/-- The two running periods of `sched_ab` as `PState`s. -/
def psA : PState := ⟨always_period "a" none, none, SState.running⟩

/-- See `psA`. -/
def psB : PState := ⟨always_period "b" none, none, SState.running⟩

/-- A resizable, currently running resource of type `"A"`. -/
def inst_A : Instance := ⟨true, true, some "A"⟩

/-- The running period of `sched_B` as a `PState`. -/
def psP1B : PState := ⟨always_period "p1" (some 540), some "B", SState.running⟩

/-- Two always-running periods with distinct explicit begin times. -/
def sched_cd : InstanceSchedule :=
  mkSched [⟨always_period "c" (some 60), none⟩, ⟨always_period "d" (some 120), none⟩] none

/-- The running periods of `sched_cd` as `PState`s. -/
def psC : PState := ⟨always_period "c" (some 60), none, SState.running⟩

/-- See `psC`. -/
def psD : PState := ⟨always_period "d" (some 120), none, SState.running⟩

/-- The billing fields of an interval descriptor match the source formulas
applied to its own bounds: `max(end - begin, 60)` seconds and
`floor((end - begin - 1) / 3600) + 1` hours. -/
def billing_ok (iv : RunPeriod) : Prop :=
  iv.billing_seconds = max (iv.end_dt - iv.begin_dt) 60 ∧
  iv.billing_hours = (iv.end_dt - iv.begin_dt - 1) / 3600 + 1

/-- An interval descriptor lies inside the day starting at `dayStart` (its
end possibly at the synthesized next-midnight close) and is non-degenerate. -/
def iv_bounds (dayStart : Nat) (iv : RunPeriod) : Prop :=
  dayStart ≤ iv.begin_dt ∧ iv.begin_dt < iv.end_dt ∧ iv.end_dt ≤ dayStart + 86400

/-- Well-formed period bounds: every begin/end time-of-day is below 1440
minutes (as `datetime.time` guarantees in the source). -/
def wf_times (s : InstanceSchedule) : Prop :=
  ∀ p ∈ s.periods, (∀ b ∈ p.period.begintime, b < 1440) ∧ (∀ b ∈ p.period.endtime, b < 1440)

/-- The open-interval part of the walk invariant: whenever the tracked state
is running, `started` holds an instant of the day that precedes every
still-unprocessed boundary in `l`. -/
def open_ok (dayStart : Nat) (l : List Nat) (st : WalkState) : Prop :=
  st.current_state = some SState.running →
    ∃ t0, st.started = some t0 ∧ dayStart ≤ t0 ∧ t0 ≤ dayStart + 86340 ∧ ∀ e ∈ l, t0 < e

/-- C3: when `override_status` is set, `get_desired_state` returns `running`
(for the forced-running value) or `stopped` (otherwise) with period name
`"override_status"` and no resource type, for every resource and instant,
and the result does not depend on the schedule's periods. -/
theorem override_status_short_circuits (s : InstanceSchedule) (inst : Instance)
    (dt : Option Nat) (ov : String) (ps : List PeriodEntry)
    (h : s.override_status = some ov) :
    get_desired_state s inst dt =
      ((if ov = OVERRIDE_STATUS_RUNNING then SState.running else SState.stopped),
        none, some "override_status") ∧
    get_desired_state { s with periods := ps } inst dt = get_desired_state s inst dt := by
  simp [get_desired_state, h]

/-- Witness for C3 at a concrete forced-running schedule. -/
theorem override_status_short_circuits_witness :
    get_desired_state sched_ov resize_inst (some 7) =
      (SState.running, none, some "override_status") ∧
    get_desired_state { sched_ov with periods := [⟨always_period "x" none, none⟩] }
        resize_inst (some 7) = get_desired_state sched_ov resize_inst (some 7) := by
  have h := override_status_short_circuits sched_ov resize_inst (some 7) "running"
    [⟨always_period "x" none, none⟩] (by decide)
  exact ⟨by rw [h.1]; decide, h.2⟩

/-- C6: a schedule with no periods and no override resolves to `stopped`
with no resource type and no period name, for every resource and instant. -/
theorem empty_periods_resolve_stopped (s : InstanceSchedule) (inst : Instance)
    (dt : Option Nat) (hp : s.periods = []) (ho : s.override_status = none) :
    get_desired_state s inst dt = (SState.stopped, none, none) := by
  simp [get_desired_state, ho, periods_with_desired_states, hp]

/-- Witness for C6 at a concrete empty schedule. -/
theorem empty_periods_resolve_stopped_witness :
    get_desired_state sched_empty resize_inst (some 123) = (SState.stopped, none, none) :=
  empty_periods_resolve_stopped sched_empty resize_inst (some 123) rfl rfl

/-- C4: `get_usage` raises the invalid-range error (and produces nothing
else) when the stop day strictly precedes the start day; an omitted stop
day defaults to the start day, and then no error is raised. -/
theorem get_usage_range_validation (s : InstanceSchedule) (start_dt e : Nat)
    (i : Option Instance) (h : e < start_dt) :
    get_usage s start_dt (some e) i =
      Except.error ERR_STOP_MUST_BE_LATER_OR_EQUAL_TO_START ∧
    get_usage s start_dt none i = get_usage s start_dt (some start_dt) i ∧
    ∃ r, get_usage s start_dt none i = Except.ok r := by
  refine ⟨?_, rfl, ?_⟩
  · simp [get_usage, h]
  · simp [get_usage]

/-- Witness for C4: day range (1, 0) errors; omitted stop day succeeds. -/
theorem get_usage_range_validation_witness :
    get_usage sched_empty 1 (some 0) none =
      Except.error ERR_STOP_MUST_BE_LATER_OR_EQUAL_TO_START ∧
    get_usage sched_empty 1 none none = get_usage sched_empty 1 (some 1) none ∧
    ∃ r, get_usage sched_empty 1 none none = Except.ok r :=
  get_usage_range_validation sched_empty 1 0 none (by decide)

/-- C10: a boundary instant whose desired state is `any` (or `unknown`)
leaves the tracked interval state of the usage walk unchanged: it neither
opens a new interval nor closes the open one, and the accumulated
`running_periods` dict is untouched. -/
theorem any_state_boundary_is_neutral (s : InstanceSchedule) (inst : Instance)
    (st : WalkState) (tm : Nat)
    (h : (get_desired_state s inst (some tm)).1 = SState.any ∨
         (get_desired_state s inst (some tm)).1 = SState.unknown) :
    (usage_step s inst st tm).running_periods = st.running_periods ∧
    (usage_step s inst st tm).started = st.started ∧
    (usage_step s inst st tm).current_state = st.current_state ∧
    (usage_step s inst st tm).starting_period = st.starting_period := by
  rcases h with h | h <;> simp [usage_step, h]

/-- Witness for C10: an `any`-reporting schedule leaves a concrete walk
state unchanged. -/
theorem any_state_boundary_is_neutral_witness :
    (usage_step sched_any plain_inst init_walk 42).running_periods =
        init_walk.running_periods ∧
    (usage_step sched_any plain_inst init_walk 42).started = init_walk.started ∧
    (usage_step sched_any plain_inst init_walk 42).current_state = init_walk.current_state ∧
    (usage_step sched_any plain_inst init_walk 42).starting_period =
        init_walk.starting_period :=
  any_state_boundary_is_neutral sched_any plain_inst init_walk 42 (Or.inl (by decide))

/-- The three possible outcomes of one walk iteration: no interval action
(only `instance_type` rebound), opening an interval at `tm`, or closing the
open interval at `tm`. -/
theorem usage_step_cases (s : InstanceSchedule) (inst : Instance) (st : WalkState) (tm : Nat) :
    usage_step s inst st tm =
        { st with instance_type := (get_desired_state s inst (some tm)).2.1 } ∨
    ((get_desired_state s inst (some tm)).1 = SState.running ∧
      usage_step s inst st tm =
        { st with instance_type := (get_desired_state s inst (some tm)).2.1,
                  started := some tm, current_state := some SState.running,
                  starting_period := (get_desired_state s inst (some tm)).2.2 }) ∨
    ((get_desired_state s inst (some tm)).1 = SState.stopped ∧
      st.current_state = some SState.running ∧
      usage_step s inst st tm =
        { st with instance_type := (get_desired_state s inst (some tm)).2.1,
                  current_state := some SState.stopped,
                  running_periods := rp_insert st.running_periods st.starting_period
                    (make_period (st.started.getD 0) tm
                      (get_desired_state s inst (some tm)).2.1) }) := by
  unfold usage_step
  dsimp only
  split_ifs with h1 h2 h3 h4
  · exact Or.inr (Or.inl ⟨h2, rfl⟩)
  · exact Or.inr (Or.inr ⟨h3, h4, rfl⟩)
  · exact Or.inl rfl
  · exact Or.inl rfl
  · exact Or.inl rfl

/-- Dict assignment preserves a per-binding predicate. -/
theorem rp_insert_forall {P : Option String × RunPeriod → Prop}
    {m : List (Option String × RunPeriod)} {k : Option String} {v : RunPeriod}
    (hm : ∀ x ∈ m, P x) (hv : P (k, v)) : ∀ x ∈ rp_insert m k v, P x := by
  intro x hx
  unfold rp_insert at hx
  split at hx
  · obtain ⟨y, hy, hxy⟩ := List.mem_map.1 hx
    by_cases hk : y.1 == k
    · rw [if_pos hk] at hxy; exact hxy ▸ hv
    · rw [if_neg hk] at hxy; exact hxy ▸ hm y hy
  · rcases List.mem_append.1 hx with h | h
    · exact hm x h
    · rw [List.mem_singleton.1 h]; exact hv

/-- Every interval built by `make_period` carries the billing formulas. -/
theorem make_period_billing_ok (b e : Nat) (ty : Option String) :
    billing_ok (make_period b e ty) := ⟨rfl, rfl⟩

/-- One walk iteration preserves the billing formulas of all accumulated
intervals. -/
theorem usage_step_billing (s : InstanceSchedule) (inst : Instance) (st : WalkState) (tm : Nat)
    (hm : ∀ x ∈ st.running_periods, billing_ok x.2) :
    ∀ x ∈ (usage_step s inst st tm).running_periods, billing_ok x.2 := by
  rcases usage_step_cases s inst st tm with h | ⟨_, h⟩ | ⟨_, _, h⟩ <;> rw [h]
  · exact hm
  · exact hm
  · exact rp_insert_forall (P := fun x => billing_ok x.2) hm (make_period_billing_ok _ _ _)

/-- The whole walk preserves the billing formulas. -/
theorem foldl_usage_billing (s : InstanceSchedule) (inst : Instance) :
    ∀ (l : List Nat) (st : WalkState), (∀ x ∈ st.running_periods, billing_ok x.2) →
      ∀ x ∈ (l.foldl (usage_step s inst) st).running_periods, billing_ok x.2 := by
  intro l
  induction l with
  | nil => intro st hst; exact hst
  | cons tm l ih =>
    intro st hst
    exact ih _ (usage_step_billing s inst st tm hst)

/-- Every interval of a day's `running_periods` (day-end close included)
carries the billing formulas. -/
theorem day_usage_billing (s : InstanceSchedule) (inst : Instance) (dtv : Nat) :
    ∀ x ∈ (day_usage s inst dtv).running_periods, billing_ok x.2 := by
  have hwalk := foldl_usage_billing s inst (sorted_timeline s dtv) init_walk
    (by intro x hx; exact absurd hx (by simp [init_walk]))
  show ∀ x ∈ (day_running_periods s inst dtv), billing_ok x.2
  unfold day_running_periods
  dsimp only
  split
  · exact rp_insert_forall (P := fun x => billing_ok x.2) hwalk (make_period_billing_ok _ _ _)
  · exact hwalk

/-- Every day entry of a successful `get_usage` result is the `day_usage`
of its own day. -/
theorem get_usage_days (s : InstanceSchedule) (start_dt : Nat) (stop_dt : Option Nat)
    (i : Option Instance) (nm : String) (days : List (Nat × DayUsage))
    (h : get_usage s start_dt stop_dt i = Except.ok (nm, days)) :
    ∀ d ∈ days, d.2 = day_usage s (i.getD placeholder_instance) (d.1 * 86400) := by
  unfold get_usage at h
  dsimp only at h
  split at h
  · exact absurd h (by simp)
  · rw [Except.ok.injEq, Prod.mk.injEq] at h
    obtain ⟨-, h2⟩ := h
    intro d hd
    rw [← h2] at hd
    obtain ⟨j, hj, rfl⟩ := List.mem_map.1 hd
    rfl

/-- C5: every closed interval produced by `get_usage` has
`billing_seconds = max(end - begin, 60)` and
`billing_hours = (end - begin - 1) / 3600 + 1`; a 60-second interval bills
60 seconds and 1 hour, a 3601-second interval bills 2 hours, and an 8-hour
interval bills 28800 seconds and 8 hours. -/
theorem billing_formulas (s : InstanceSchedule) (start_dt : Nat) (stop_dt : Option Nat)
    (i : Option Instance) (nm : String) (days : List (Nat × DayUsage))
    (h : get_usage s start_dt stop_dt i = Except.ok (nm, days)) :
    (∀ d ∈ days, ∀ x ∈ d.2.running_periods,
      x.2.billing_seconds = max (x.2.end_dt - x.2.begin_dt) 60 ∧
      x.2.billing_hours = (x.2.end_dt - x.2.begin_dt - 1) / 3600 + 1) ∧
    (∀ t : Nat, running_seconds t (t + 60) = 60 ∧ running_hours t (t + 60) = 1 ∧
      running_hours t (t + 3601) = 2 ∧
      running_seconds t (t + 28800) = 28800 ∧ running_hours t (t + 28800) = 8) := by
  constructor
  · intro d hd x hx
    rw [get_usage_days s start_dt stop_dt i nm days h d hd] at hx
    exact day_usage_billing s (i.getD placeholder_instance) (d.1 * 86400) x hx
  · intro t
    have h60 : t + 60 - t = 60 := by omega
    have h3601 : t + 3601 - t = 3601 := by omega
    have h28800 : t + 28800 - t = 28800 := by omega
    refine ⟨?_, ?_, ?_, ?_, ?_⟩ <;>
      simp [running_seconds, running_hours, h60, h3601, h28800]

/-- Witness for C5 on the 09:00-17:00 schedule: its produced interval
satisfies the formulas, and the rounding examples hold. -/
theorem billing_formulas_witness :
    (make_period 32400 61200 none).billing_seconds =
      max ((make_period 32400 61200 none).end_dt - (make_period 32400 61200 none).begin_dt) 60 ∧
    (make_period 32400 61200 none).billing_hours =
      ((make_period 32400 61200 none).end_dt - (make_period 32400 61200 none).begin_dt - 1)
        / 3600 + 1 ∧
    running_hours 0 (0 + 3601) = 2 ∧ running_seconds 0 (0 + 60) = 60 ∧
    running_seconds 0 (0 + 28800) = 28800 := by
  have h := billing_formulas sched_office 0 none none "sched"
      [(0, day_usage sched_office placeholder_instance 0)] rfl
  have hmem : ((some "office", make_period 32400 61200 none) : Option String × RunPeriod) ∈
      (day_usage sched_office placeholder_instance 0).running_periods := by decide
  have hx := h.1 (0, day_usage sched_office placeholder_instance 0) (by simp)
      (some "office", make_period 32400 61200 none) hmem
  exact ⟨hx.1, hx.2, (h.2 0).2.2.1, (h.2 0).1, (h.2 0).2.2.2.1⟩

/-- `latest_starttime` returns one of its two arguments. -/
theorem latest_starttime_cases (p q : PState) :
    latest_starttime p q = p ∨ latest_starttime p q = q := by
  unfold latest_starttime
  cases hp : p.period.begintime with
  | none => exact Or.inr rfl
  | some b1 =>
    cases hq : q.period.begintime with
    | none => exact Or.inl rfl
    | some b2 =>
      dsimp only
      split_ifs with h
      · exact Or.inl rfl
      · exact Or.inr rfl

/-- An explicit begin time of either argument bounds `latest_starttime`
from below: the result then also has an explicit begin time at least as
late. -/
theorem latest_starttime_ge (p q : PState) (b : Nat)
    (h : p.period.begintime = some b ∨ q.period.begintime = some b) :
    ∃ b', (latest_starttime p q).period.begintime = some b' ∧ b ≤ b' := by
  unfold latest_starttime
  cases hp : p.period.begintime with
  | none =>
    rcases h with h | h
    · exact absurd (hp ▸ h) (by simp)
    · exact ⟨b, h, le_refl b⟩
  | some b1 =>
    cases hq : q.period.begintime with
    | none =>
      rcases h with h | h
      · exact ⟨b1, hp, le_of_eq (by rw [hp] at h; exact (Option.some.inj h).symm)⟩
      · exact absurd (hq ▸ h) (by simp)
    | some b2 =>
      dsimp only
      rcases h with h | h
      · rw [hp] at h
        have h' := Option.some.inj h
        split_ifs with hgt
        · exact ⟨b1, hp, by omega⟩
        · exact ⟨b2, hq, by omega⟩
      · rw [hq] at h
        have h' := Option.some.inj h
        split_ifs with hgt
        · exact ⟨b1, hp, by omega⟩
        · exact ⟨b2, hq, by omega⟩

/-- The `latest_starttime` fold returns a member of the candidate list. -/
theorem foldl_latest_mem (x : PState) (xs : List PState) :
    xs.foldl latest_starttime x ∈ x :: xs := by
  induction xs generalizing x with
  | nil => exact List.mem_singleton.2 rfl
  | cons y ys ih =>
    rw [List.foldl_cons]
    rcases List.mem_cons.1 (ih (latest_starttime x y)) with h | h
    · rcases latest_starttime_cases x y with hc | hc
      · rw [h, hc]; exact List.mem_cons_self x (y :: ys)
      · rw [h, hc]; exact List.mem_cons_of_mem x (List.mem_cons_self y ys)
    · exact List.mem_cons_of_mem x (List.mem_cons_of_mem y h)

/-- Any candidate with an explicit begin time is dominated by the fold
result, which then also has an explicit begin time. -/
theorem foldl_latest_ge (xs : List PState) (x : PState) :
    ∀ q ∈ x :: xs, ∀ b, q.period.begintime = some b →
      ∃ bw, (xs.foldl latest_starttime x).period.begintime = some bw ∧ b ≤ bw := by
  induction xs generalizing x with
  | nil =>
    intro q hq b hb
    obtain rfl := List.mem_singleton.1 hq
    exact ⟨b, hb, le_refl b⟩
  | cons y ys ih =>
    intro q hq b hb
    rw [List.foldl_cons]
    rcases List.mem_cons.1 hq with rfl | hq'
    · obtain ⟨b1, h1, hb1⟩ := latest_starttime_ge q y b (Or.inl hb)
      obtain ⟨bw, hw, hbw⟩ := ih (latest_starttime q y)
        (latest_starttime q y) (List.mem_cons_self _ _) b1 h1
      exact ⟨bw, hw, le_trans hb1 hbw⟩
    · rcases List.mem_cons.1 hq' with rfl | hq''
      · obtain ⟨b1, h1, hb1⟩ := latest_starttime_ge x q b (Or.inr hb)
        obtain ⟨bw, hw, hbw⟩ := ih (latest_starttime x q)
          (latest_starttime x q) (List.mem_cons_self _ _) b1 h1
        exact ⟨bw, hw, le_trans hb1 hbw⟩
      · exact ih (latest_starttime x y) q (List.mem_cons_of_mem _ hq'') b hb

/-- When a candidate `w` has the strictly maximal explicit begin time, the
fold returns `w`. -/
theorem foldl_latest_unique (xs : List PState) (x w : PState) (bw : Nat)
    (hw : w ∈ x :: xs) (hwb : w.period.begintime = some bw)
    (hmax : ∀ q ∈ x :: xs, ∀ b, q.period.begintime = some b → b ≤ bw)
    (huni : ∀ q ∈ x :: xs, q.period.begintime = some bw → q = w) :
    xs.foldl latest_starttime x = w := by
  have hmem := foldl_latest_mem x xs
  obtain ⟨bw', hb', hge⟩ := foldl_latest_ge xs x w hw bw hwb
  have h1 : bw' ≤ bw := hmax _ hmem bw' hb'
  have h2 : bw' = bw := le_antisymm h1 hge
  exact huni _ hmem (h2 ▸ hb')

/-- With no override and a non-empty running filter, `get_desired_state`
reduces to `handle_running_state` on the running periods. -/
theorem get_desired_state_running (s : InstanceSchedule) (inst : Instance) (t : Nat)
    (x : PState) (xs : List PState)
    (ho : s.override_status = none)
    (hr : (periods_with_desired_states s t).filter (fun p => p.state == SState.running) =
      x :: xs) :
    get_desired_state s inst (some t) = handle_running_state inst (x :: xs) := by
  simp [get_desired_state, ho, hr]

/-- On a non-empty list, `handle_running_state` is determined by the
`latest_starttime` fold. -/
theorem handle_running_state_eq (inst : Instance) (x : PState) (xs : List PState) :
    handle_running_state inst (x :: xs) =
      (let w := xs.foldl latest_starttime x
       let desired_type := if inst.allow_resize then w.instancetype else none
       ((if requires_adjust_instance_size desired_type inst then SState.stopped
         else SState.running), desired_type, some w.period.name)) := by
  rfl

/-- C2: with a non-empty set of running periods, `evaluate` reports the
name of exactly one winning period — the `latest_starttime` fold result —
which is a member of the running periods, whose begin time dominates every
explicit begin time among them (so a period with no begin time is never
preferred over one that has one), and which is the sole running period when
only one reports running. -/
theorem running_tiebreak (s : InstanceSchedule) (inst : Instance) (t : Nat)
    (x : PState) (xs : List PState)
    (ho : s.override_status = none)
    (hr : (periods_with_desired_states s t).filter (fun p => p.state == SState.running) =
      x :: xs) :
    (get_desired_state s inst (some t)).2.2 =
      some (xs.foldl latest_starttime x).period.name ∧
    xs.foldl latest_starttime x ∈ x :: xs ∧
    (∀ q ∈ x :: xs, ∀ b, q.period.begintime = some b →
      ∃ bw, (xs.foldl latest_starttime x).period.begintime = some bw ∧ b ≤ bw) ∧
    (xs = [] → xs.foldl latest_starttime x = x) := by
  refine ⟨?_, foldl_latest_mem x xs, foldl_latest_ge xs x, ?_⟩
  · rw [get_desired_state_running s inst t x xs ho hr, handle_running_state_eq]
  · intro h; subst h; rfl

/-- Witness for C2 on the two-period schedule `sched_ab`. -/
theorem running_tiebreak_witness :
    (get_desired_state sched_ab resize_inst (some 0)).2.2 =
      some (([psB].foldl latest_starttime psA)).period.name ∧
    [psB].foldl latest_starttime psA ∈ psA :: [psB] ∧
    (∀ q ∈ psA :: [psB], ∀ b, q.period.begintime = some b →
      ∃ bw, ([psB].foldl latest_starttime psA).period.begintime = some bw ∧ b ≤ bw) ∧
    ([psB] = ([] : List PState) → [psB].foldl latest_starttime psA = psA) :=
  running_tiebreak sched_ab resize_inst 0 psA [psB] rfl rfl

/-- Counterexample for C1: the resource is resizable, running, and has NO
recorded current type, so by the claim's wording ("current_type is set" is
required for the stop override) the result should be `running`; the code
nevertheless overrides to `stopped`, because
`requires_adjust_instance_size` compares the desired type against an unset
current type and treats them as differing. -/
theorem type_forcing_counterexample :
    resize_inst.allow_resize = true ∧ resize_inst.is_running = true ∧
    resize_inst.instancetype = none ∧
    get_desired_state sched_B resize_inst (some 0) =
      (SState.stopped, some "B", some "p1") := by
  refine ⟨rfl, rfl, rfl, ?_⟩
  decide

/-- `requires_adjust_instance_size` as a proposition. -/
theorem requires_adjust_iff (d : Option String) (inst : Instance) :
    requires_adjust_instance_size d inst = true ↔
      (inst.allow_resize = true ∧ inst.is_running = true ∧ d.isSome = true ∧
        d ≠ inst.instancetype) := by
  unfold requires_adjust_instance_size
  simp only [Bool.and_eq_true, bne_iff_ne]
  tauto

/-- C1 (amended): with a winning running period, the result type is the
winner's override when `allow_resize` (else null), the period name is the
winner's, and the state is overridden from `running` to `stopped` exactly
when `allow_resize` is true, `is_running` is true, the desired type is set
and the desired type differs from the current type — where an UNSET current
type also counts as differing (the claim's extra requirement that
`current_type` be set does not hold of the code). -/
theorem type_forcing_amended (s : InstanceSchedule) (inst : Instance) (t : Nat)
    (x : PState) (xs : List PState)
    (ho : s.override_status = none)
    (hr : (periods_with_desired_states s t).filter (fun p => p.state == SState.running) =
      x :: xs) :
    (get_desired_state s inst (some t)).2.1 =
      (if inst.allow_resize then (xs.foldl latest_starttime x).instancetype else none) ∧
    (get_desired_state s inst (some t)).2.2 =
      some (xs.foldl latest_starttime x).period.name ∧
    ((get_desired_state s inst (some t)).1 = SState.stopped ∨
      (get_desired_state s inst (some t)).1 = SState.running) ∧
    ((get_desired_state s inst (some t)).1 = SState.stopped ↔
      (inst.allow_resize = true ∧ inst.is_running = true ∧
        (if inst.allow_resize then (xs.foldl latest_starttime x).instancetype else none).isSome
          = true ∧
        (if inst.allow_resize then (xs.foldl latest_starttime x).instancetype else none)
          ≠ inst.instancetype)) := by
  rw [get_desired_state_running s inst t x xs ho hr, handle_running_state_eq]
  dsimp only
  refine ⟨rfl, rfl, ?_, ?_⟩ <;>
    by_cases h : requires_adjust_instance_size
        (if inst.allow_resize then (xs.foldl latest_starttime x).instancetype else none) inst
        = true
  · rw [if_pos h]; exact Or.inl rfl
  · rw [if_neg h]; exact Or.inr rfl
  · rw [if_pos h]
    simp only [true_iff]
    exact (requires_adjust_iff _ inst).1 h
  · rw [if_neg h]
    constructor
    · intro hc; exact absurd hc (by simp)
    · intro hc; exact absurd ((requires_adjust_iff _ inst).2 hc) h

/-- Witness for amended C1: winning type `"B"` against current type `"A"`
forces `stopped`. -/
theorem type_forcing_amended_witness :
    (get_desired_state sched_B inst_A (some 0)).2.1 =
      (if inst_A.allow_resize then (([] : List PState).foldl latest_starttime psP1B).instancetype
        else none) ∧
    (get_desired_state sched_B inst_A (some 0)).2.2 =
      some (([] : List PState).foldl latest_starttime psP1B).period.name ∧
    ((get_desired_state sched_B inst_A (some 0)).1 = SState.stopped ∨
      (get_desired_state sched_B inst_A (some 0)).1 = SState.running) ∧
    ((get_desired_state sched_B inst_A (some 0)).1 = SState.stopped ↔
      (inst_A.allow_resize = true ∧ inst_A.is_running = true ∧
        (if inst_A.allow_resize then (([] : List PState).foldl latest_starttime psP1B).instancetype
          else none).isSome = true ∧
        (if inst_A.allow_resize then (([] : List PState).foldl latest_starttime psP1B).instancetype
          else none) ≠ inst_A.instancetype)) :=
  type_forcing_amended sched_B inst_A 0 psP1B [] rfl rfl

/-- A permutation-invariant `any` over lists. -/
theorem perm_any_eq {α : Type} (p : α → Bool) {l1 l2 : List α} (h : l1.Perm l2) :
    l1.any p = l2.any p := by
  cases h1 : l2.any p
  · rw [List.any_eq_false] at h1 ⊢; intro a ha; exact h1 a (h.mem_iff.1 ha)
  · rw [List.any_eq_true] at h1 ⊢; obtain ⟨a, ha, hp⟩ := h1; exact ⟨a, h.mem_iff.2 ha, hp⟩

/-- `handle_running_state` is invariant under permutation of the running
periods, provided some running period has an explicit begin time and
explicit begin times identify candidates uniquely, or at most one period
runs. -/
theorem handle_running_perm (inst : Instance) (x x2 : PState) (xs xs2 : List PState)
    (hperm : (x2 :: xs2).Perm (x :: xs))
    (H1 : (∃ p ∈ x :: xs, p.period.begintime.isSome = true) ∨ (x :: xs).length ≤ 1)
    (H2 : ∀ p ∈ x :: xs, ∀ q ∈ x :: xs, ∀ b, p.period.begintime = some b →
      q.period.begintime = some b → p = q) :
    handle_running_state inst (x2 :: xs2) = handle_running_state inst (x :: xs) := by
  rcases H1 with ⟨p, hp, hps⟩ | hlen
  · obtain ⟨bp, hbp⟩ := Option.isSome_iff_exists.1 hps
    have hwmem : xs.foldl latest_starttime x ∈ x :: xs := foldl_latest_mem x xs
    have hw2mem : xs2.foldl latest_starttime x2 ∈ x :: xs :=
      hperm.mem_iff.1 (foldl_latest_mem x2 xs2)
    obtain ⟨bw, hbw, -⟩ := foldl_latest_ge xs x p hp bp hbp
    obtain ⟨bw2, hbw2, -⟩ := foldl_latest_ge xs2 x2 p (hperm.mem_iff.2 hp) bp hbp
    have hmax : ∀ q ∈ x :: xs, ∀ b, q.period.begintime = some b → b ≤ bw := by
      intro q hq b hb
      obtain ⟨c, hc, hbc⟩ := foldl_latest_ge xs x q hq b hb
      rw [hbw] at hc
      exact le_of_le_of_eq hbc (Option.some.inj hc).symm
    have hmax2 : ∀ q ∈ x :: xs, ∀ b, q.period.begintime = some b → b ≤ bw2 := by
      intro q hq b hb
      obtain ⟨c, hc, hbc⟩ := foldl_latest_ge xs2 x2 q (hperm.mem_iff.2 hq) b hb
      rw [hbw2] at hc
      exact le_of_le_of_eq hbc (Option.some.inj hc).symm
    have hbweq : bw2 = bw :=
      le_antisymm (hmax _ hw2mem bw2 hbw2) (hmax2 _ hwmem bw hbw)
    have hww : xs2.foldl latest_starttime x2 = xs.foldl latest_starttime x :=
      H2 _ hw2mem _ hwmem bw (hbweq ▸ hbw2) hbw
    rw [handle_running_state_eq, handle_running_state_eq, hww]
  · have hxs : xs = [] := by
      cases xs with
      | nil => rfl
      | cons a l => simp at hlen
    subst hxs
    have h1 : x2 :: xs2 = [x] := List.perm_singleton.1 hperm
    rw [h1]

/-- With no override and no running period, `get_desired_state` reduces to
the any/stopped decision. -/
theorem get_desired_state_not_running (s : InstanceSchedule) (inst : Instance) (t : Nat)
    (ho : s.override_status = none)
    (hr : (periods_with_desired_states s t).filter (fun p => p.state == SState.running) = []) :
    get_desired_state s inst (some t) =
      if (periods_with_desired_states s t).any (fun p => p.state == SState.any)
      then (SState.any, none, none) else (SState.stopped, none, none) := by
  unfold get_desired_state
  rw [ho]
  dsimp only [Option.getD_some]
  rw [hr]
  rfl

/-- Counterexample for C8: swapping two simultaneously running always-on
periods (both without a begin time) changes the period name reported by
`get_desired_state`, so the result is not invariant under permutation of
the periods list. -/
theorem permutation_counterexample :
    sched_ba.periods.Perm sched_ab.periods ∧
    sched_ba.name = sched_ab.name ∧ sched_ba.timezone = sched_ab.timezone ∧
    sched_ba.override_status = sched_ab.override_status ∧
    sched_ba.schedule_dt = sched_ab.schedule_dt ∧
    get_desired_state sched_ba resize_inst (some 0) ≠
      get_desired_state sched_ab resize_inst (some 0) := by
  refine ⟨?_, rfl, rfl, rfl, rfl, by decide⟩
  exact List.Perm.swap _ _ _

/-- C8 (amended): the result of `get_desired_state` is invariant under any
permutation of the periods list, provided that among the periods reporting
running at the instant either at most one exists, or at least one has an
explicit begin time and no two of them share the same explicit begin time.
Without that proviso the tie-break is order-dependent
(`permutation_counterexample`). -/
theorem permutation_invariance_amended (s : InstanceSchedule) (ps : List PeriodEntry)
    (inst : Instance) (t : Nat)
    (hperm : ps.Perm s.periods)
    (H1 : (∃ p ∈ (periods_with_desired_states s t).filter
            (fun p => p.state == SState.running), p.period.begintime.isSome = true) ∨
          ((periods_with_desired_states s t).filter
            (fun p => p.state == SState.running)).length ≤ 1)
    (H2 : ∀ p ∈ (periods_with_desired_states s t).filter
            (fun p => p.state == SState.running),
          ∀ q ∈ (periods_with_desired_states s t).filter
            (fun p => p.state == SState.running),
          ∀ b, p.period.begintime = some b → q.period.begintime = some b → p = q) :
    get_desired_state { s with periods := ps } inst (some t) =
      get_desired_state s inst (some t) := by
  set s2 := { s with periods := ps } with hs2
  cases ho : s.override_status with
  | some ov =>
    have ho2 : s2.override_status = some ov := by rw [hs2]; exact ho
    have e1 : get_desired_state s inst (some t) =
        ((if ov = OVERRIDE_STATUS_RUNNING then SState.running else SState.stopped),
          none, some "override_status") := by simp [get_desired_state, ho]
    have e2 : get_desired_state s2 inst (some t) =
        ((if ov = OVERRIDE_STATUS_RUNNING then SState.running else SState.stopped),
          none, some "override_status") := by simp [get_desired_state, ho, ho2]
    rw [e1, e2]
  | none =>
    have ho2 : s2.override_status = none := by rw [hs2]; exact ho
    have hpds : (periods_with_desired_states s2 t).Perm (periods_with_desired_states s t) := by
      rw [hs2]
      unfold periods_with_desired_states
      exact hperm.map _
    have hfil : ((periods_with_desired_states s2 t).filter
        (fun p => p.state == SState.running)).Perm
        ((periods_with_desired_states s t).filter (fun p => p.state == SState.running)) :=
      hpds.filter _
    cases hR : (periods_with_desired_states s t).filter
        (fun p => p.state == SState.running) with
    | nil =>
      rw [hR] at hfil
      have hR2 : (periods_with_desired_states s2 t).filter
          (fun p => p.state == SState.running) = [] := hfil.eq_nil
      rw [get_desired_state_not_running s inst t ho hR,
        get_desired_state_not_running s2 inst t ho2 hR2, perm_any_eq _ hpds]
    | cons x xs =>
      rw [hR] at hfil H1 H2
      cases hR2 : (periods_with_desired_states s2 t).filter
          (fun p => p.state == SState.running) with
      | nil =>
        rw [hR2] at hfil
        exact absurd hfil.symm.eq_nil (by simp)
      | cons x2 xs2 =>
        rw [hR2] at hfil
        rw [get_desired_state_running s2 inst t x2 xs2 ho2 hR2,
          get_desired_state_running s inst t x xs ho hR]
        exact handle_running_perm inst x x2 xs xs2 hfil H1 H2

/-- Witness for amended C8: swapping two running periods with distinct
explicit begin times leaves the result unchanged. -/
theorem permutation_invariance_amended_witness :
    get_desired_state
        { sched_cd with periods := [⟨always_period "d" (some 120), none⟩,
            ⟨always_period "c" (some 60), none⟩] }
        resize_inst (some 0) =
      get_desired_state sched_cd resize_inst (some 0) := by
  have hfil : (periods_with_desired_states sched_cd 0).filter
      (fun p => p.state == SState.running) = [psC, psD] := rfl
  refine permutation_invariance_amended sched_cd
    [⟨always_period "d" (some 120), none⟩, ⟨always_period "c" (some 60), none⟩]
    resize_inst 0 (List.Perm.swap _ _ _) ?_ ?_
  · rw [hfil]
    exact Or.inl ⟨psC, List.mem_cons_self _ _, rfl⟩
  · rw [hfil]
    intro p hp q hq b h1 h2
    rcases List.mem_cons.1 hp with rfl | hp' <;> rcases List.mem_cons.1 hq with rfl | hq'
    · rfl
    · rw [List.mem_singleton.1 hq'] at h2 ⊢
      simp [psC, psD, always_period] at h1 h2
      omega
    · rw [List.mem_singleton.1 hp'] at h1 ⊢
      simp [psC, psD, always_period] at h1 h2
      omega
    · rw [List.mem_singleton.1 hp', List.mem_singleton.1 hq']

/-- Assigning an existing key makes the key map to the new value. -/
theorem lookup_overwrite (k : Option String) (v : RunPeriod) :
    ∀ m : List (Option String × RunPeriod), m.any (fun e => e.1 == k) = true →
      (m.map (fun e => if e.1 == k then (k, v) else e)).lookup k = some v := by
  intro m
  induction m with
  | nil => intro h; simp at h
  | cons e es ih =>
    intro h
    cases he : (e.1 == k) with
    | true =>
      rw [List.map_cons, if_pos he]
      simp [List.lookup]
    | false =>
      have hne2 : ¬ ((e.1 == k) = true) := by rw [he]; exact Bool.false_ne_true
      have h2 : es.any (fun e => e.1 == k) = true := by
        rw [List.any_cons, he, Bool.false_or] at h
        exact h
      have hke : (k == e.1) = false := by
        rw [beq_eq_false_iff_ne] at he ⊢
        exact fun hh => he hh.symm
      rw [List.map_cons, if_neg hne2]
      simp only [List.lookup, hke]
      exact ih h2

/-- Overwriting key `k` leaves all other keys' values unchanged. -/
theorem lookup_map_ne (k : Option String) (v : RunPeriod) (k2 : Option String) (hne : k2 ≠ k) :
    ∀ m : List (Option String × RunPeriod),
      (m.map (fun e => if e.1 == k then (k, v) else e)).lookup k2 = m.lookup k2 := by
  intro m
  induction m with
  | nil => rfl
  | cons e es ih =>
    cases he : (e.1 == k) with
    | true =>
      have hek : e.1 = k := eq_of_beq he
      have h1 : (k2 == k) = false := beq_eq_false_iff_ne.2 hne
      have h2 : (k2 == e.1) = false := beq_eq_false_iff_ne.2 (by rw [hek]; exact hne)
      rw [List.map_cons, if_pos he]
      simp only [List.lookup, h1, h2]
      exact ih
    | false =>
      have hne2 : ¬ ((e.1 == k) = true) := by rw [he]; exact Bool.false_ne_true
      rw [List.map_cons, if_neg hne2]
      simp only [List.lookup]
      cases hk2 : (k2 == e.1) with
      | true => rfl
      | false => exact ih

/-- Appending a fresh binding for `k` leaves all other keys unchanged. -/
theorem lookup_append_ne (k : Option String) (v : RunPeriod) (k2 : Option String)
    (hne : k2 ≠ k) :
    ∀ m : List (Option String × RunPeriod), (m ++ [(k, v)]).lookup k2 = m.lookup k2 := by
  intro m
  induction m with
  | nil =>
    have h1 : (k2 == k) = false := beq_eq_false_iff_ne.2 hne
    simp only [List.nil_append, List.lookup, h1]
  | cons e es ih =>
    simp only [List.cons_append, List.lookup]
    cases hk2 : (k2 == e.1) with
    | true => rfl
    | false => exact ih

/-- Frame rule for dict assignment: other keys are untouched. -/
theorem rp_insert_lookup_ne (m : List (Option String × RunPeriod)) (k : Option String)
    (v : RunPeriod) (k2 : Option String) (hne : k2 ≠ k) :
    (rp_insert m k v).lookup k2 = m.lookup k2 := by
  unfold rp_insert
  split
  · exact lookup_map_ne k v k2 hne m
  · exact lookup_append_ne k v k2 hne m

/-- C7: closing a second interval under an already-present period name
overwrites the earlier interval (same map size, new value at that key,
other keys framed); the day totals sum over exactly the retained map
entries; and, end to end, the two disjoint `"p"` windows of `sched_twice`
leave only the later interval `[10800, 14400]` in the day's map — the
earlier close `[3600, 7200]`, present mid-walk, is gone and excluded from
the totals. -/
theorem same_name_overwrites :
    (∀ (m : List (Option String × RunPeriod)) (k : Option String) (v : RunPeriod),
      m.any (fun e => e.1 == k) = true →
        ((rp_insert m k v).lookup k = some v ∧ (rp_insert m k v).length = m.length ∧
          ∀ k2, k2 ≠ k → (rp_insert m k v).lookup k2 = m.lookup k2)) ∧
    (∀ (s : InstanceSchedule) (inst : Instance) (dtv : Nat),
      (day_usage s inst dtv).billing_seconds =
        ((day_usage s inst dtv).running_periods.map fun e => e.2.billing_seconds).sum ∧
      (day_usage s inst dtv).billing_hours =
        ((day_usage s inst dtv).running_periods.map fun e => e.2.billing_hours).sum) ∧
    (sorted_timeline sched_twice 0 = [0, 3600, 7200, 10800, 14400] ∧
      ([0, 3600, 7200].foldl (usage_step sched_twice placeholder_instance)
        init_walk).running_periods = [(some "p", make_period 3600 7200 none)] ∧
      (day_usage sched_twice placeholder_instance 0).running_periods =
        [(some "p", make_period 10800 14400 none)] ∧
      (day_usage sched_twice placeholder_instance 0).billing_seconds = 3600 ∧
      (day_usage sched_twice placeholder_instance 0).billing_hours = 1) := by
  refine ⟨?_, ?_, by decide, by decide, by decide, by decide, by decide⟩
  · intro m k v hk
    refine ⟨?_, ?_, ?_⟩
    · unfold rp_insert
      rw [if_pos hk]
      exact lookup_overwrite k v m hk
    · unfold rp_insert
      rw [if_pos hk]
      exact List.length_map _ _
    · intro k2 h2
      exact rp_insert_lookup_ne m k v k2 h2
  · intro s inst dtv
    exact ⟨rfl, rfl⟩

/-- Witness for C7: overwriting the `"p"` interval keeps the map at one
binding holding the later interval. -/
theorem same_name_overwrites_witness :
    (rp_insert [(some "p", make_period 3600 7200 none)] (some "p")
      (make_period 10800 14400 none)).lookup (some "p") =
        some (make_period 10800 14400 none) ∧
    (rp_insert [(some "p", make_period 3600 7200 none)] (some "p")
      (make_period 10800 14400 none)).length = 1 := by
  have h1 := same_name_overwrites.1 [(some "p", make_period 3600 7200 none)] (some "p")
    (make_period 10800 14400 none) (by decide)
  exact ⟨h1.1, h1.2.1⟩

/-- Every boundary candidate added by the timeline fold stays within
`[dayStart, dayStart + 86340]` when period times-of-day are well formed. -/
theorem timeline_aux_bounds (dtv : Nat) (ps : List PeriodEntry)
    (wf : ∀ p ∈ ps, (∀ b ∈ p.period.begintime, b < 1440) ∧
      (∀ b ∈ p.period.endtime, b < 1440)) :
    ∀ (acc : List Nat), (∀ e ∈ acc, dtv ≤ e ∧ e ≤ dtv + 86340) →
      ∀ e ∈ ps.foldl
        (fun tl p =>
          match p.period.begintime, p.period.endtime with
          | none, none => tl ++ [dtv, dtv + 86340]
          | b?, e? =>
            let tl := match b? with
              | some b => tl ++ [dtv + b * 60]
              | none => tl
            match e? with
            | some e => tl ++ [dtv + e * 60]
            | none => tl) acc,
      dtv ≤ e ∧ e ≤ dtv + 86340 := by
  induction ps with
  | nil => intro acc hacc e he; exact hacc e he
  | cons p ps ih =>
    intro acc hacc e he
    rw [List.foldl_cons] at he
    refine ih (fun q hq => wf q (List.mem_cons_of_mem _ hq)) _ ?_ e he
    have hwf := wf p (List.mem_cons_self _ _)
    intro x hx
    cases hb : p.period.begintime with
    | none =>
      cases hee : p.period.endtime with
      | none =>
        rw [hb, hee] at hx
        rcases List.mem_append.1 hx with h | h
        · exact hacc x h
        · rcases List.mem_cons.1 h with rfl | h
          · omega
          · rw [List.mem_singleton.1 h]; omega
      | some te =>
        have hte : te < 1440 := hwf.2 te (by rw [hee]; rfl)
        rw [hb, hee] at hx
        dsimp only at hx
        rcases List.mem_append.1 hx with h | h
        · exact hacc x h
        · rw [List.mem_singleton.1 h]; omega
    | some tb =>
      have htb : tb < 1440 := hwf.1 tb (by rw [hb]; rfl)
      cases hee : p.period.endtime with
      | none =>
        rw [hb, hee] at hx
        dsimp only at hx
        rcases List.mem_append.1 hx with h | h
        · exact hacc x h
        · rw [List.mem_singleton.1 h]; omega
      | some te =>
        have hte : te < 1440 := hwf.2 te (by rw [hee]; rfl)
        rw [hb, hee] at hx
        dsimp only at hx
        rcases List.mem_append.1 hx with h | h
        · rcases List.mem_append.1 h with h2 | h2
          · exact hacc x h2
          · rw [List.mem_singleton.1 h2]; omega
        · rw [List.mem_singleton.1 h]; omega

/-- The day's boundary candidates stay within the day. -/
theorem timeline_bounds (s : InstanceSchedule) (dtv : Nat) (wf : wf_times s) :
    ∀ e ∈ timeline s dtv, dtv ≤ e ∧ e ≤ dtv + 86340 := by
  intro e he
  exact timeline_aux_bounds dtv s.periods wf [dtv]
    (by intro x hx; rw [List.mem_singleton.1 hx]; omega) e he

/-- The sorted deduplicated boundary instants stay within the day. -/
theorem sorted_timeline_bounds (s : InstanceSchedule) (dtv : Nat) (wf : wf_times s) :
    ∀ e ∈ sorted_timeline s dtv, dtv ≤ e ∧ e ≤ dtv + 86340 := by
  intro e he
  have h1 : e ∈ (timeline s dtv).dedup :=
    (List.perm_insertionSort _ _).mem_iff.1 he
  exact timeline_bounds s dtv wf e (List.mem_dedup.1 h1)

/-- The walked boundary instants are strictly increasing. -/
theorem sorted_timeline_sorted (s : InstanceSchedule) (dtv : Nat) :
    List.Sorted (· < ·) (sorted_timeline s dtv) := by
  have h1 : List.Sorted (· ≤ ·) (sorted_timeline s dtv) :=
    List.sorted_insertionSort _ _
  have h2 : (sorted_timeline s dtv).Nodup :=
    (List.perm_insertionSort _ _).nodup_iff.2 (List.nodup_dedup _)
  exact h1.lt_of_le h2

/-- The walk invariant: accumulated intervals lie inside the day and are
non-degenerate, and an open interval started inside the day strictly
before every still-unprocessed boundary. -/
theorem walk_bounds (s : InstanceSchedule) (inst : Instance) (dayStart : Nat) :
    ∀ (l : List Nat) (st : WalkState),
      List.Sorted (· < ·) l →
      (∀ e ∈ l, dayStart ≤ e ∧ e ≤ dayStart + 86340) →
      (∀ x ∈ st.running_periods, iv_bounds dayStart x.2) →
      open_ok dayStart l st →
      (∀ x ∈ (l.foldl (usage_step s inst) st).running_periods, iv_bounds dayStart x.2) ∧
      open_ok dayStart [] (l.foldl (usage_step s inst) st) := by
  intro l
  induction l with
  | nil => intro st _ _ hm ho; exact ⟨hm, ho⟩
  | cons tm l ih =>
    intro st hsort hbd hm ho
    rw [List.foldl_cons]
    have hbtm := hbd tm (List.mem_cons_self _ _)
    have hrest : ∀ e ∈ l, dayStart ≤ e ∧ e ≤ dayStart + 86340 :=
      fun e he => hbd e (List.mem_cons_of_mem _ he)
    have html : ∀ e ∈ l, tm < e := (List.sorted_cons.1 hsort).1
    refine ih _ hsort.of_cons hrest ?_ ?_
    · rcases usage_step_cases s inst st tm with hcase | ⟨hrun, hcase⟩ | ⟨hstop, hcur, hcase⟩ <;>
        rw [hcase]
      · exact hm
      · exact hm
      · obtain ⟨t0, hst0, hd0, hb0, hlt⟩ := ho hcur
        refine rp_insert_forall (P := fun x => iv_bounds dayStart x.2) hm ?_
        rw [hst0]
        show iv_bounds dayStart (make_period t0 tm (get_desired_state s inst (some tm)).2.1)
        unfold iv_bounds make_period
        dsimp only
        exact ⟨hd0, hlt tm (List.mem_cons_self _ _), by omega⟩
    · rcases usage_step_cases s inst st tm with hcase | ⟨hrun, hcase⟩ | ⟨hstop, hcur, hcase⟩ <;>
        rw [hcase]
      · intro hc
        obtain ⟨t0, hst0, hd0, hb0, hlt⟩ := ho hc
        exact ⟨t0, hst0, hd0, hb0, fun e he => hlt e (List.mem_cons_of_mem _ he)⟩
      · intro _
        exact ⟨tm, rfl, hbtm.1, hbtm.2, html⟩
      · intro hc
        exact absurd hc (by simp)

/-- Every interval of a day's `running_periods` (synthesized close
included) lies inside the day and is non-degenerate. -/
theorem day_running_periods_bounds (s : InstanceSchedule) (inst : Instance) (dtv : Nat)
    (wf : wf_times s) :
    ∀ x ∈ day_running_periods s inst dtv, iv_bounds dtv x.2 := by
  obtain ⟨hm, ho⟩ := walk_bounds s inst dtv (sorted_timeline s dtv) init_walk
    (sorted_timeline_sorted s dtv) (sorted_timeline_bounds s dtv wf)
    (by intro x hx; exact absurd hx (by simp [init_walk]))
    (by intro hc; exact absurd hc (by simp [init_walk]))
  unfold day_running_periods
  dsimp only
  split
  · next hc =>
    obtain ⟨t0, hst0, hd0, hb0, -⟩ := ho hc
    refine rp_insert_forall (P := fun x => iv_bounds dtv x.2) hm ?_
    show iv_bounds dtv (make_period ((day_walk s inst dtv).started.getD 0) (dtv + 86400)
      (day_walk s inst dtv).instance_type)
    rw [show (day_walk s inst dtv).started = some t0 from hst0]
    unfold iv_bounds make_period
    simp only [Option.getD_some]
    exact ⟨hd0, by omega, by omega⟩
  · exact hm

/-- C9: every interval descriptor produced by `get_usage` starts at or
after its day's midnight, ends strictly after it begins and no later than
the next midnight, bills at least 60 seconds, and bills at least 1 hour
(assuming the periods' times-of-day are well formed, as `datetime.time`
guarantees). -/
theorem usage_intervals_well_formed (s : InstanceSchedule) (start_dt : Nat)
    (stop_dt : Option Nat) (i : Option Instance) (nm : String)
    (days : List (Nat × DayUsage)) (wf : wf_times s)
    (h : get_usage s start_dt stop_dt i = Except.ok (nm, days)) :
    ∀ d ∈ days, ∀ x ∈ d.2.running_periods,
      d.1 * 86400 ≤ x.2.begin_dt ∧ x.2.begin_dt < x.2.end_dt ∧
      x.2.end_dt ≤ d.1 * 86400 + 86400 ∧
      60 ≤ x.2.billing_seconds ∧ 1 ≤ x.2.billing_hours := by
  intro d hd x hx
  rw [get_usage_days s start_dt stop_dt i nm days h d hd] at hx
  have hb : iv_bounds (d.1 * 86400) x.2 :=
    day_running_periods_bounds s (i.getD placeholder_instance) (d.1 * 86400) wf x hx
  have hbil : billing_ok x.2 :=
    day_usage_billing s (i.getD placeholder_instance) (d.1 * 86400) x hx
  obtain ⟨h1, h2, h3⟩ := hb
  obtain ⟨h4, h5⟩ := hbil
  refine ⟨h1, h2, h3, ?_, ?_⟩
  · rw [h4]; exact le_max_right _ _
  · rw [h5]; exact Nat.le_add_left 1 _

/-- Witness for C9 on the 09:00-17:00 schedule's produced interval. -/
theorem usage_intervals_well_formed_witness :
    0 * 86400 ≤ (make_period 32400 61200 none).begin_dt ∧
    (make_period 32400 61200 none).begin_dt < (make_period 32400 61200 none).end_dt ∧
    (make_period 32400 61200 none).end_dt ≤ 0 * 86400 + 86400 ∧
    60 ≤ (make_period 32400 61200 none).billing_seconds ∧
    1 ≤ (make_period 32400 61200 none).billing_hours :=
  usage_intervals_well_formed sched_office 0 none none "sched"
    [(0, day_usage sched_office placeholder_instance 0)]
    (by
      intro p hp
      simp only [sched_office, mkSched, List.mem_singleton] at hp
      subst hp
      constructor
      · intro b hb
        simp [window_period] at hb
        omega
      · intro b hb
        simp [window_period] at hb
        omega) rfl
    (0, day_usage sched_office placeholder_instance 0) (by simp)
    (some "office", make_period 32400 61200 none) (by decide)
